import Mathlib

/-!
Verification of the lambda-cost-calculator estimation core.

The development shallowly embeds the two source files:
* `consts.py` — the pricing table `MEMORY_TO_PRICE`, the constants
  `PRICE_PER_INVOCATION` and `PRICE_INTERVALS_MS`, and the nearest-tier
  lookup `get_price_by_memory`;
* `lambda_cost_calculator.py` — the estimator `calculate_cost`, the
  per-function display row built in `print_lambda_cost`, the running
  monthly total, and the final sort of the report rows.

Numbers that are Python floats in the source (durations, invocation
counts, prices, costs) are modelled as exact rationals `ℚ`; memory sizes
(Python ints) are modelled as `ℤ`.
-/

set_option maxRecDepth 20000

namespace LambdaCost

/-- `PRICE_PER_INVOCATION = 0.0000002` from consts.py. -/
def PRICE_PER_INVOCATION : ℚ := 0.0000002

/-- `PRICE_INTERVALS_MS = 100.0` from consts.py. -/
def PRICE_INTERVALS_MS : ℚ := 100

/-- The `MEMORY_TO_PRICE` dict from consts.py, in its written (insertion)
order, as an association list from memory size (MB) to price per 100ms
interval. -/
def MEMORY_TO_PRICE : List (ℤ × ℚ) := [
  (128, 0.000000208),
  (192, 0.000000313),
  (256, 0.000000417),
  (320, 0.000000521),
  (384, 0.000000625),
  (448, 0.000000729),
  (512, 0.000000834),
  (576, 0.000000938),
  (640, 0.000001042),
  (704, 0.000001146),
  (768, 0.000001250),
  (832, 0.000001354),
  (896, 0.000001459),
  (960, 0.000001563),
  (1024, 0.000001667),
  (1088, 0.000001771),
  (1152, 0.000001875),
  (1216, 0.000001980),
  (1280, 0.000002045),
  (1344, 0.000002188),
  (1408, 0.000002292),
  (1472, 0.000002396),
  (1536, 0.000002501),
  (1600, 0.000002605),
  (1664, 0.000002709),
  (1728, 0.000002813),
  (1792, 0.000002917),
  (1856, 0.000003021),
  (1920, 0.000003126),
  (1984, 0.000003230),
  (2048, 0.000003334),
  (2112, 0.000003438),
  (2176, 0.000003542),
  (2240, 0.000003647),
  (2304, 0.000003751),
  (2368, 0.000003855),
  (2432, 0.000003959),
  (2496, 0.000004063),
  (2560, 0.000004168),
  (2624, 0.000004272),
  (2688, 0.000004376),
  (2752, 0.000004480),
  (2816, 0.000004584),
  (2880, 0.000004688),
  (2944, 0.000004793),
  (3008, 0.000004897)]

/-- `list(MEMORY_TO_PRICE.keys())`: the memory tiers in written order. -/
def memoryKeys : List ℤ := MEMORY_TO_PRICE.map Prod.fst

/-- Python's `min(l, key=f)` scans left to right and keeps the first
element whose key is strictly smaller than the current best's key; this is
that scan with current best `b` and remaining elements `l`. -/
def minFrom (f : ℤ → ℤ) (b : ℤ) (l : List ℤ) : ℤ :=
  l.foldl (fun b x => if f x < f b then x else b) b

/-- Python's `min(l, key=f)` on a whole list (`none` when the list is
empty, where Python raises `ValueError`). -/
def pyMin (f : ℤ → ℤ) : List ℤ → Option ℤ
  | [] => none
  | a :: l => some (minFrom f a l)

/-- The local `function_memory = min(list(MEMORY_TO_PRICE.keys()),
key=lambda x: abs(x - memory_size))` in `get_price_by_memory` (consts.py).
The `getD 0` default is unreachable: the table is nonempty. -/
def function_memory (memory_size : ℤ) : ℤ :=
  (pyMin (fun x => |x - memory_size|) memoryKeys).getD 0

/-- The dict access `MEMORY_TO_PRICE[k]` (consts.py line 83); `getD 0` is
unreachable for keys taken from the table, where Python would raise. -/
def tierPrice (k : ℤ) : ℚ :=
  (MEMORY_TO_PRICE.lookup k).getD 0

/-- `get_price_by_memory` from consts.py: the price of the tier whose
memory size is closest to the input. -/
def get_price_by_memory (memory_size : ℤ) : ℚ :=
  tierPrice (function_memory memory_size)

/-- `ceil(avg_duration / PRICE_INTERVALS_MS)`: the number of 100ms billing
intervals charged (lambda_cost_calculator.py line 97). -/
def intervals (avg_duration : ℚ) : ℤ :=
  ⌈avg_duration / PRICE_INTERVALS_MS⌉

/-- `calculate_cost` from lambda_cost_calculator.py (lines 88-101). -/
def calculate_cost (avg_duration sum_invocations : ℚ) (memory_size : ℤ) : ℚ :=
  (intervals avg_duration : ℚ) * sum_invocations * get_price_by_memory memory_size +
    sum_invocations * PRICE_PER_INVOCATION

/-- One (function, region) usage record as fetched in `print_lambda_cost`:
CloudWatch average duration and invocation sum for the function, plus its
memory size. -/
structure UsageRecord where
  functionName : String
  region : String
  memorySize : ℤ
  avgDuration : ℚ
  sumInvocations : ℚ
deriving DecidableEq

/-- The `period_cost` local of `print_lambda_cost` (lines 153-157). -/
def period_cost (r : UsageRecord) : ℚ :=
  calculate_cost r.avgDuration r.sumInvocations r.memorySize

/-- The `period_cost * 30` monthly figure used for the display row
(line 169) and for the running total (line 172). -/
def monthlyEstimate (r : UsageRecord) : ℚ :=
  period_cost r * 30

/-- Python `int()` on a float: truncation toward zero. -/
def pyInt (q : ℚ) : ℤ :=
  if 0 ≤ q then ⌊q⌋ else ⌈q⌉

/-- The value displayed by `'{0:.3f}'.format(q)` and read back by
`float(...)` in the sort key: `q` rounded to 3 decimal places.  (Python
formats the nearest binary double with round-half-even; on the exact
rationals of this model the two rounding modes differ only at exact
`.0005` midpoints, which no binary double occupies.) -/
def round3 (q : ℚ) : ℚ :=
  (round (q * 1000) : ℚ) / 1000

/-- One row appended to `lambdas_data` (lines 159-171).  `none` models the
`RESULT_NA = 'N/A'` sentinel; a cost cell `some c` models the 3-decimal
string `'{0:.3f}'.format(...)` whose numeric value is `c`. -/
structure LambdaRow where
  functionName : String
  region : String
  memorySize : ℤ
  avgDurationCell : Option ℤ
  invocationsCell : Option ℤ
  dailyCostCell : Option ℚ
  monthlyCostCell : Option ℚ
deriving DecidableEq

/-- The tuple appended to `lambdas_data` for one record (lines 159-171). -/
def buildRow (r : UsageRecord) : LambdaRow where
  functionName := r.functionName
  region := r.region
  memorySize := r.memorySize
  avgDurationCell := if r.avgDuration = 0 then none else some (pyInt r.avgDuration)
  invocationsCell := if r.avgDuration = 0 then none else some (pyInt r.sumInvocations)
  dailyCostCell := if r.avgDuration = 0 then none else some (round3 (period_cost r))
  monthlyCostCell := if r.avgDuration = 0 then none else some (round3 (period_cost r * 30))

/-- `total_monthly_cost`: starts at 0 and accumulates `period_cost * 30`
for every record, in discovery order (lines 125 and 172). -/
def totalMonthlyCost (records : List UsageRecord) : ℚ :=
  records.foldl (fun acc r => acc + period_cost r * 30) 0

/-- The sort key of line 181: `0 if x[5] == RESULT_NA else float(x[5])`
(the displayed last-day cost, or 0 for the `N/A` sentinel). -/
def sortKey (row : LambdaRow) : ℚ :=
  match row.dailyCostCell with
  | none => 0
  | some c => c

/-- Stable descending insertion step: a later-discovered row is placed
after every already-placed row of greater-or-equal key. -/
def insertRow (a : LambdaRow) : List LambdaRow → List LambdaRow
  | [] => [a]
  | b :: t => if sortKey b ≤ sortKey a then a :: b :: t else b :: insertRow a t

/-- `lambdas_data.sort(key=..., reverse=True)` (lines 180-183): Python's
sort is stable and here descending; insertion sort realizes exactly that
specification (stable sorts agree extensionally). -/
def sortRows (rows : List LambdaRow) : List LambdaRow :=
  rows.foldr insertRow []

/-! ### Generic facts about Python's `min(l, key=f)` -/

theorem minFrom_cons (f : ℤ → ℤ) (b x : ℤ) (t : List ℤ) :
    minFrom f b (x :: t) = minFrom f (if f x < f b then x else b) t := rfl

theorem minFrom_mem (f : ℤ → ℤ) : ∀ (l : List ℤ) (b : ℤ), minFrom f b l ∈ b :: l := by
  intro l
  induction l with
  | nil => intro b; simp [minFrom]
  | cons x t ih =>
    intro b
    rw [minFrom_cons]
    by_cases hc : f x < f b
    · rw [if_pos hc]
      have h := ih x
      simp only [List.mem_cons] at h ⊢
      tauto
    · rw [if_neg hc]
      have h := ih b
      simp only [List.mem_cons] at h ⊢
      tauto

theorem minFrom_eq_of_strict (f : ℤ → ℤ) (r : ℤ) :
    ∀ (l : List ℤ) (b : ℤ), r ∈ b :: l →
      (∀ y ∈ b :: l, y ≠ r → f r < f y) → minFrom f b l = r := by
  intro l
  induction l with
  | nil =>
    intro b hr _
    simp only [List.mem_singleton] at hr
    simp [minFrom, hr]
  | cons x t ih =>
    intro b hr hstrict
    rw [minFrom_cons]
    simp only [List.mem_cons] at hr hstrict
    by_cases hc : f x < f b
    · rw [if_pos hc]
      apply ih x ?_ ?_
      · simp only [List.mem_cons]
        rcases hr with h | h | h
        · left
          by_contra hxr
          have h1 : f r < f x := hstrict x (Or.inr (Or.inl rfl)) (fun he => hxr he.symm)
          rw [h] at h1
          exact absurd hc (lt_asymm h1)
        · exact Or.inl h
        · exact Or.inr h
      · intro y hy hyr
        simp only [List.mem_cons] at hy
        exact hstrict y (Or.inr hy) hyr
    · rw [if_neg hc]
      apply ih b ?_ ?_
      · simp only [List.mem_cons]
        rcases hr with h | h | h
        · exact Or.inl h
        · left
          by_contra hbr
          have h1 : f r < f b := hstrict b (Or.inl rfl) (fun he => hbr he.symm)
          rw [h] at h1
          exact hc h1
        · exact Or.inr h
      · intro y hy hyr
        simp only [List.mem_cons] at hy
        rcases hy with h | h
        · exact hstrict y (Or.inl h) hyr
        · exact hstrict y (Or.inr (Or.inr h)) hyr

theorem function_memory_mem (m : ℤ) : function_memory m ∈ memoryKeys := by
  have h : memoryKeys = (128 : ℤ) :: memoryKeys.tail := by decide
  rw [function_memory, h, pyMin, Option.getD_some]
  exact minFrom_mem _ _ _

theorem function_memory_eq_of_strict (m k : ℤ) (hk : k ∈ memoryKeys)
    (h : ∀ y ∈ memoryKeys, y ≠ k → |k - m| < |y - m|) :
    function_memory m = k := by
  have hcons : memoryKeys = (128 : ℤ) :: memoryKeys.tail := by decide
  rw [function_memory, hcons, pyMin, Option.getD_some]
  rw [hcons] at hk h
  exact minFrom_eq_of_strict _ k _ _ hk h

/-! ### Association-list lookup facts -/

theorem lookup_mem : ∀ {l : List (ℤ × ℚ)} {k : ℤ} {p : ℚ},
    l.lookup k = some p → (k, p) ∈ l := by
  intro l
  induction l with
  | nil => intro k p h; simp [List.lookup] at h
  | cons a t ih =>
    intro k p h
    rw [List.lookup] at h
    cases hbe : (k == a.1) with
    | true =>
      simp only [hbe] at h
      have hk' : k = a.1 := eq_of_beq hbe
      have hp' : a.2 = p := Option.some_inj.mp h
      rw [hk', ← hp']
      exact List.mem_cons_self a t
    | false =>
      simp only [hbe] at h
      exact List.mem_cons_of_mem _ (ih h)

theorem lookup_isSome : ∀ {l : List (ℤ × ℚ)} {k : ℤ},
    k ∈ l.map Prod.fst → (l.lookup k).isSome := by
  intro l
  induction l with
  | nil => intro k h; simp at h
  | cons a t ih =>
    intro k h
    rw [List.lookup]
    cases hbe : (k == a.1) with
    | true => simp only [hbe, Option.isSome_some]
    | false =>
      simp only [hbe]
      apply ih
      simp only [List.map_cons, List.mem_cons] at h
      rcases h with h | h
      · simp [h] at hbe
      · exact h

/-- The price returned for any memory size is a price of the table. -/
theorem get_price_spec (m : ℤ) :
    ∃ kp ∈ MEMORY_TO_PRICE, get_price_by_memory m = kp.2 := by
  have hmem : function_memory m ∈ MEMORY_TO_PRICE.map Prod.fst :=
    function_memory_mem m
  have hsome := lookup_isSome hmem
  obtain ⟨p, hp⟩ := Option.isSome_iff_exists.mp hsome
  refine ⟨(function_memory m, p), lookup_mem hp, ?_⟩
  rw [get_price_by_memory, tierPrice, hp, Option.getD_some]

theorem table_price_pos : ∀ kp ∈ MEMORY_TO_PRICE, (0 : ℚ) < kp.2 := by
  intro kp hkp
  fin_cases hkp <;> norm_num

theorem get_price_pos (m : ℤ) : 0 < get_price_by_memory m := by
  obtain ⟨kp, hkp, heq⟩ := get_price_spec m
  rw [heq]
  exact table_price_pos kp hkp

/-! ### Decidable facts about the concrete table -/

theorem adjacent_facts : ∀ p ∈ memoryKeys.zip memoryKeys.tail,
    p.1 ∈ memoryKeys ∧ p.2 ∈ memoryKeys ∧ p.2 = p.1 + 64 ∧
      ∀ y ∈ memoryKeys, y ≤ p.1 ∨ p.2 ≤ y := by
  decide

theorem adjacent_midpoint : ∀ p ∈ memoryKeys.zip memoryKeys.tail,
    function_memory (p.1 + 32) = p.1 := by
  decide

theorem exact_tier_selection : ∀ k ∈ memoryKeys, function_memory k = k := by
  decide

/-! ### Facts about the report sort and the running total -/

theorem insertRow_perm (a : LambdaRow) : ∀ l, List.Perm (insertRow a l) (a :: l) := by
  intro l
  induction l with
  | nil => rfl
  | cons b t ih =>
    rw [insertRow]
    by_cases hc : sortKey b ≤ sortKey a
    · rw [if_pos hc]
    · rw [if_neg hc]
      exact (ih.cons b).trans (List.Perm.swap a b t)

theorem sortRows_perm : ∀ l, List.Perm (sortRows l) l := by
  intro l
  induction l with
  | nil => rfl
  | cons a t ih =>
    have h : sortRows (a :: t) = insertRow a (sortRows t) := rfl
    rw [h]
    exact ((insertRow_perm a (sortRows t)).trans (ih.cons a))

theorem insertRow_sorted (a : LambdaRow) :
    ∀ l, l.Pairwise (fun u v => sortKey v ≤ sortKey u) →
      (insertRow a l).Pairwise (fun u v => sortKey v ≤ sortKey u) := by
  intro l
  induction l with
  | nil => intro _; simp [insertRow]
  | cons b t ih =>
    intro h
    rw [List.pairwise_cons] at h
    rw [insertRow]
    by_cases hc : sortKey b ≤ sortKey a
    · rw [if_pos hc]
      rw [List.pairwise_cons]
      constructor
      · intro y hy
        rw [List.mem_cons] at hy
        rcases hy with hy | hy
        · rw [hy]; exact hc
        · exact le_trans (h.1 y hy) hc
      · rw [List.pairwise_cons]
        exact h
    · rw [if_neg hc]
      rw [List.pairwise_cons]
      constructor
      · intro y hy
        rw [(insertRow_perm a t).mem_iff, List.mem_cons] at hy
        rcases hy with hy | hy
        · rw [hy]; exact le_of_lt (lt_of_not_le hc)
        · exact h.1 y hy
      · exact ih h.2

theorem sortRows_sorted :
    ∀ l, (sortRows l).Pairwise (fun u v => sortKey v ≤ sortKey u) := by
  intro l
  induction l with
  | nil => simp [sortRows]
  | cons a t ih =>
    have h : sortRows (a :: t) = insertRow a (sortRows t) := rfl
    rw [h]
    exact insertRow_sorted a (sortRows t) ih

theorem filter_insertRow (a : LambdaRow) (c : ℚ) :
    ∀ l, (insertRow a l).filter (fun r => decide (sortKey r = c)) =
      if sortKey a = c
      then a :: l.filter (fun r => decide (sortKey r = c))
      else l.filter (fun r => decide (sortKey r = c)) := by
  intro l
  induction l with
  | nil =>
    by_cases hac : sortKey a = c
    · rw [if_pos hac]
      simp [insertRow, List.filter, hac]
    · rw [if_neg hac]
      simp [insertRow, List.filter, hac]
  | cons b t ih =>
    rw [insertRow]
    by_cases hc : sortKey b ≤ sortKey a
    · rw [if_pos hc]
      by_cases hac : sortKey a = c
      · rw [if_pos hac]
        simp [List.filter_cons, hac]
      · rw [if_neg hac]
        simp [List.filter_cons, hac]
    · rw [if_neg hc]
      by_cases hac : sortKey a = c
      · rw [if_pos hac]
        have hbc : ¬ sortKey b = c := by
          rw [← hac]
          intro hbe
          exact hc (le_of_eq hbe)
        simp [List.filter_cons, hbc, ih, hac]
      · rw [if_neg hac]
        simp [List.filter_cons, ih, hac]

theorem sortRows_filter (c : ℚ) :
    ∀ l, (sortRows l).filter (fun r => decide (sortKey r = c)) =
      l.filter (fun r => decide (sortKey r = c)) := by
  intro l
  induction l with
  | nil => rfl
  | cons a t ih =>
    have h : sortRows (a :: t) = insertRow a (sortRows t) := rfl
    rw [h, filter_insertRow]
    by_cases hac : sortKey a = c
    · rw [if_pos hac, ih, List.filter_cons]
      simp [hac]
    · rw [if_neg hac, ih, List.filter_cons]
      simp [hac]

theorem foldl_total (l : List UsageRecord) :
    ∀ c : ℚ, l.foldl (fun acc r => acc + period_cost r * 30) c =
      c + (l.map monthlyEstimate).sum := by
  induction l with
  | nil => intro c; simp
  | cons r t ih =>
    intro c
    rw [List.foldl_cons, ih, List.map_cons, List.sum_cons]
    rw [monthlyEstimate]
    ring

theorem totalMonthlyCost_eq_sum (l : List UsageRecord) :
    totalMonthlyCost l = (l.map monthlyEstimate).sum := by
  rw [totalMonthlyCost, foldl_total]
  ring

/-! ### Concrete tier prices used in the examples -/

theorem price_128 : get_price_by_memory 128 = 0.000000208 := rfl

theorem price_512 : get_price_by_memory 512 = 0.000000834 := rfl

/-! ### Evaluation helpers for ceilings and 3-decimal rounding -/

theorem intervals_eq (d : ℚ) (n : ℤ) (h1 : (n : ℚ) - 1 < d / 100) (h2 : d / 100 ≤ (n : ℚ)) :
    intervals d = n := by
  rw [intervals, PRICE_INTERVALS_MS]
  exact Int.ceil_eq_iff.mpr ⟨h1, h2⟩

theorem round3_eq_div (q : ℚ) (n : ℤ)
    (h1 : (n : ℚ) ≤ q * 1000 + 1 / 2) (h2 : q * 1000 + 1 / 2 < (n : ℚ) + 1) :
    round3 q = (n : ℚ) / 1000 := by
  rw [round3, round_eq, Int.floor_eq_iff.mpr ⟨h1, h2⟩]

theorem sortKey_buildRow_pos (r : UsageRecord) (h : r.avgDuration ≠ 0) :
    sortKey (buildRow r) = round3 (period_cost r) := by
  simp [sortKey, buildRow, h]

theorem sortKey_buildRow_zero (r : UsageRecord) (h : r.avgDuration = 0) :
    sortKey (buildRow r) = 0 := by
  simp [sortKey, buildRow, h]

theorem lookup_of_mem : ∀ {l : List (ℤ × ℚ)}, (l.map Prod.fst).Nodup →
    ∀ {k : ℤ} {p : ℚ}, (k, p) ∈ l → l.lookup k = some p := by
  intro l
  induction l with
  | nil => intro _ k p h; simp at h
  | cons a t ih =>
    intro hnd k p h
    rw [List.map_cons, List.nodup_cons] at hnd
    rw [List.lookup]
    rcases List.mem_cons.mp h with h1 | h1
    · rw [← h1]
      simp
    · have hk : k ∈ t.map Prod.fst := List.mem_map_of_mem Prod.fst h1
      have hne : (k == a.1) = false := by
        rw [beq_eq_false_iff_ne]
        intro he
        rw [he] at hk
        exact hnd.1 hk
      simp only [hne]
      exact ih hnd.2 h1

/-! ## The claims -/

/-- C1: the estimator returns exactly `ceil(d/100) * priceForMemory(m) * n
+ n * 0.0000002` as the daily cost, the monthly estimate is that daily
cost times 30, and for d=250, n=1000, m=512 the daily cost is 0.002702 and
the monthly estimate 0.08106. -/
theorem C1_cost_formula :
    (∀ d n : ℚ, ∀ m : ℤ, calculate_cost d n m =
        (⌈d / 100⌉ : ℚ) * get_price_by_memory m * n + n * 0.0000002) ∧
    (∀ r : UsageRecord, monthlyEstimate r = period_cost r * 30) ∧
    calculate_cost 250 1000 512 = 0.002702 ∧
    calculate_cost 250 1000 512 * 30 = 0.08106 := by
  have h3 : intervals 250 = 3 := intervals_eq 250 3 (by norm_num) (by norm_num)
  refine ⟨?_, fun r => rfl, ?_, ?_⟩
  · intro d n m
    rw [calculate_cost, intervals, PRICE_INTERVALS_MS, PRICE_PER_INVOCATION]
    ring
  · rw [calculate_cost, h3, price_512, PRICE_PER_INVOCATION]
    norm_num
  · rw [calculate_cost, h3, price_512, PRICE_PER_INVOCATION]
    norm_num

/-- C2 counterexample: a record with zero average duration but 1000
invocations adds 0.006 (not 0) to the running monthly total, because the
per-invocation request cost does not vanish. -/
theorem C2_counterexample :
    totalMonthlyCost [⟨"f", "us-east-1", 128, 0, 1000⟩] = 0.006 ∧
      (0.006 : ℚ) ≠ 0 := by
  have h0 : intervals 0 = 0 := intervals_eq 0 0 (by norm_num) (by norm_num)
  constructor
  · rw [totalMonthlyCost, List.foldl_cons, List.foldl_nil]
    show 0 + calculate_cost 0 1000 128 * 30 = 0.006
    rw [calculate_cost, h0, PRICE_PER_INVOCATION]
    norm_num
  · norm_num

/-- C2 amended: a record with zero average duration contributes exactly
`30 * invocations * PRICE_PER_INVOCATION` to the running monthly total
(so 0 only when the invocation count is also 0). -/
theorem C2_zero_duration_contribution :
    (∀ n : ℚ, ∀ m : ℤ, calculate_cost 0 n m = n * PRICE_PER_INVOCATION) ∧
    (∀ r : UsageRecord, r.avgDuration = 0 → ∀ l : List UsageRecord,
      totalMonthlyCost (l ++ [r]) =
        totalMonthlyCost l + 30 * r.sumInvocations * PRICE_PER_INVOCATION) := by
  have h0 : intervals 0 = 0 := intervals_eq 0 0 (by norm_num) (by norm_num)
  constructor
  · intro n m
    rw [calculate_cost, h0]
    norm_num
  · intro r hr l
    rw [totalMonthlyCost_eq_sum, totalMonthlyCost_eq_sum, List.map_append,
      List.sum_append, List.map_cons, List.map_nil, List.sum_cons, List.sum_nil]
    rw [monthlyEstimate, period_cost, hr, calculate_cost, h0]
    push_cast
    ring

theorem C2_zero_duration_contribution_witness :
    totalMonthlyCost ([⟨"g", "us-east-1", 256, 100, 1⟩] ++ [⟨"f", "us-east-1", 128, 0, 1000⟩]) =
      totalMonthlyCost [⟨"g", "us-east-1", 256, 100, 1⟩] +
        30 * 1000 * PRICE_PER_INVOCATION :=
  C2_zero_duration_contribution.2 ⟨"f", "us-east-1", 128, 0, 1000⟩ rfl
    [⟨"g", "us-east-1", 256, 100, 1⟩]

/-- C4: a report row shows the not-available sentinel in the duration,
invocation and cost cells exactly when the record's average duration is
zero — all-or-nothing per record, regardless of the invocation count. -/
theorem C4_sentinel_all_or_nothing :
    ∀ r : UsageRecord,
      ((buildRow r).avgDurationCell = none ↔ r.avgDuration = 0) ∧
      ((buildRow r).invocationsCell = none ↔ r.avgDuration = 0) ∧
      ((buildRow r).dailyCostCell = none ↔ r.avgDuration = 0) ∧
      ((buildRow r).monthlyCostCell = none ↔ r.avgDuration = 0) := by
  intro r
  by_cases h : r.avgDuration = 0 <;> simp [buildRow, h]

/-- C6: the accumulated total monthly cost equals the sum of every
record's monthly estimate (real computed value), and is invariant under
permutation of the input records. -/
theorem C6_total_is_sum :
    (∀ records : List UsageRecord,
      totalMonthlyCost records = (records.map monthlyEstimate).sum) ∧
    (∀ records1 records2 : List UsageRecord, List.Perm records1 records2 →
      totalMonthlyCost records1 = totalMonthlyCost records2) := by
  refine ⟨totalMonthlyCost_eq_sum, ?_⟩
  intro l1 l2 h
  rw [totalMonthlyCost_eq_sum, totalMonthlyCost_eq_sum]
  exact (h.map monthlyEstimate).sum_eq

theorem C6_total_is_sum_witness :
    totalMonthlyCost [⟨"a", "us-east-1", 128, 100, 1⟩, ⟨"b", "eu-west-1", 256, 200, 2⟩] =
      totalMonthlyCost [⟨"b", "eu-west-1", 256, 200, 2⟩, ⟨"a", "us-east-1", 128, 100, 1⟩] :=
  C6_total_is_sum.2 _ _
    (List.Perm.swap (⟨"b", "eu-west-1", 256, 200, 2⟩ : UsageRecord)
      (⟨"a", "us-east-1", 128, 100, 1⟩ : UsageRecord) [])

/-- C7: the number of billing intervals is the mathematical ceiling of the
duration over 100ms: 1ms, 100ms, 101ms and 150ms give 1, 1, 2 and 2
intervals, and a 150ms duration is charged exactly 2 intervals in the
cost. -/
theorem C7_interval_ceiling :
    (∀ d : ℚ, intervals d = ⌈d / 100⌉) ∧
    intervals 1 = 1 ∧ intervals 100 = 1 ∧ intervals 101 = 2 ∧ intervals 150 = 2 ∧
    (∀ n : ℚ, ∀ m : ℤ,
      calculate_cost 150 n m = 2 * n * get_price_by_memory m + n * PRICE_PER_INVOCATION) := by
  refine ⟨fun d => rfl,
    intervals_eq 1 1 (by norm_num) (by norm_num),
    intervals_eq 100 1 (by norm_num) (by norm_num),
    intervals_eq 101 2 (by norm_num) (by norm_num),
    intervals_eq 150 2 (by norm_num) (by norm_num), ?_⟩
  intro n m
  rw [calculate_cost, intervals_eq 150 2 (by norm_num) (by norm_num)]
  push_cast
  ring

/-- C3: for a memory size strictly between two adjacent tiers the lookup
returns the price of the numerically closer tier, and at the exact
midpoint the lower tier wins. -/
theorem C3_nearest_tier (p : ℤ × ℤ) (hp : p ∈ memoryKeys.zip memoryKeys.tail)
    (m : ℤ) (h1 : p.1 < m) (h2 : m < p.2) :
    get_price_by_memory m =
      if 2 * m ≤ p.1 + p.2 then tierPrice p.1 else tierPrice p.2 := by
  obtain ⟨hlo, hhi, hgap, hsep⟩ := adjacent_facts p hp
  by_cases hmid : 2 * m ≤ p.1 + p.2
  · rw [if_pos hmid]
    rcases lt_or_eq_of_le hmid with hlt | heq
    · have hfm : function_memory m = p.1 := by
        apply function_memory_eq_of_strict m p.1 hlo
        intro y hy hne
        rcases hsep y hy with hc | hc <;>
          (simp only [Int.abs_eq_natAbs]; omega)
      rw [get_price_by_memory, hfm]
    · have hm32 : m = p.1 + 32 := by omega
      rw [get_price_by_memory, hm32, adjacent_midpoint p hp]
  · rw [if_neg hmid]
    push_neg at hmid
    have hfm : function_memory m = p.2 := by
      apply function_memory_eq_of_strict m p.2 hhi
      intro y hy hne
      rcases hsep y hy with hc | hc <;>
        (simp only [Int.abs_eq_natAbs]; omega)
    rw [get_price_by_memory, hfm]

theorem C3_nearest_tier_witness : get_price_by_memory 160 = tierPrice 128 := by
  have h := C3_nearest_tier (128, 192) (by decide) 160 (by decide) (by decide)
  rw [if_pos (by decide)] at h
  exact h

/-- C8: the lookup is exact on every defined tier, and the table's memory
sizes are pairwise strictly increasing in listed order (hence distinct). -/
theorem C8_exact_tiers :
    (∀ (k : ℤ) (p : ℚ), (k, p) ∈ MEMORY_TO_PRICE → get_price_by_memory k = p) ∧
    memoryKeys.Pairwise (· < ·) ∧ memoryKeys.Nodup := by
  refine ⟨?_, by decide, by decide⟩
  intro k p hkp
  have hk : k ∈ memoryKeys := List.mem_map_of_mem Prod.fst hkp
  rw [get_price_by_memory, exact_tier_selection k hk, tierPrice,
    lookup_of_mem (by decide) hkp, Option.getD_some]

theorem C8_exact_tiers_witness : get_price_by_memory 512 = 0.000000834 :=
  C8_exact_tiers.1 512 0.000000834 (by norm_num [MEMORY_TO_PRICE])

/-- C9: the price lookup and the estimator are total: for every memory
size the lookup returns a price of the (nonempty) table, and for all
inputs the estimator returns the arithmetic value built from such a
price — no error branch. -/
theorem C9_totality :
    MEMORY_TO_PRICE ≠ [] ∧
    (∀ m : ℤ, ∃ kp ∈ MEMORY_TO_PRICE, get_price_by_memory m = kp.2) ∧
    (∀ d n : ℚ, ∀ m : ℤ, ∃ kp ∈ MEMORY_TO_PRICE,
      calculate_cost d n m = (intervals d : ℚ) * n * kp.2 + n * PRICE_PER_INVOCATION) := by
  refine ⟨by simp [MEMORY_TO_PRICE], get_price_spec, ?_⟩
  intro d n m
  obtain ⟨kp, hkp, heq⟩ := get_price_spec m
  exact ⟨kp, hkp, by rw [calculate_cost, heq]⟩

/-- C10: for fixed non-negative invocation count the cost is monotone
non-decreasing in the duration, and for fixed non-negative duration it is
monotone non-decreasing in the invocation count. -/
theorem C10_monotone :
    (∀ d d' n : ℚ, ∀ m : ℤ, 0 ≤ n → d ≤ d' →
      calculate_cost d n m ≤ calculate_cost d' n m) ∧
    (∀ d n n' : ℚ, ∀ m : ℤ, 0 ≤ d → n ≤ n' →
      calculate_cost d n m ≤ calculate_cost d n' m) := by
  have h100 : (0 : ℚ) < PRICE_INTERVALS_MS := by rw [PRICE_INTERVALS_MS]; norm_num
  constructor
  · intro d d' n m hn hdd
    rw [calculate_cost, calculate_cost]
    apply add_le_add_right
    have hceil : intervals d ≤ intervals d' := by
      rw [intervals, intervals]
      exact Int.ceil_le_ceil ((div_le_div_iff_of_pos_right h100).mpr hdd)
    have hcast : ((intervals d : ℤ) : ℚ) ≤ ((intervals d' : ℤ) : ℚ) := by
      exact_mod_cast hceil
    have hP : 0 ≤ get_price_by_memory m := (get_price_pos m).le
    exact mul_le_mul_of_nonneg_right (mul_le_mul_of_nonneg_right hcast hn) hP
  · intro d n n' m hd hnn
    rw [calculate_cost, calculate_cost]
    have hI : (0 : ℚ) ≤ (intervals d : ℚ) := by
      have h : 0 ≤ intervals d := by
        rw [intervals]
        exact Int.ceil_nonneg (div_nonneg hd h100.le)
      exact_mod_cast h
    have hP : 0 ≤ get_price_by_memory m := (get_price_pos m).le
    have hppi : (0 : ℚ) ≤ PRICE_PER_INVOCATION := by rw [PRICE_PER_INVOCATION]; norm_num
    have hco : 0 ≤ (intervals d : ℚ) * get_price_by_memory m + PRICE_PER_INVOCATION :=
      add_nonneg (mul_nonneg hI hP) hppi
    calc (intervals d : ℚ) * n * get_price_by_memory m + n * PRICE_PER_INVOCATION
        = n * ((intervals d : ℚ) * get_price_by_memory m + PRICE_PER_INVOCATION) := by ring
      _ ≤ n' * ((intervals d : ℚ) * get_price_by_memory m + PRICE_PER_INVOCATION) :=
          mul_le_mul_of_nonneg_right hnn hco
      _ = (intervals d : ℚ) * n' * get_price_by_memory m + n' * PRICE_PER_INVOCATION := by ring

theorem C10_monotone_witness :
    calculate_cost 100 5 128 ≤ calculate_cost 250 5 128 ∧
    calculate_cost 100 5 128 ≤ calculate_cost 100 7 128 :=
  ⟨C10_monotone.1 100 250 5 128 (by norm_num) (by norm_num),
   C10_monotone.2 100 5 7 128 (by norm_num) (by norm_num)⟩

/-- C5 counterexample: two rows whose daily costs (0.0000408 and 0.000408)
both display as "0.000" tie under the actual sort key, so the later,
strictly cheaper-per-month row stays first: the output is not in
descending order of monthly cost. -/
theorem C5_counterexample :
    sortRows [buildRow ⟨"B", "us-east-1", 128, 100, 100⟩,
              buildRow ⟨"A", "us-east-1", 128, 100, 1000⟩] =
      [buildRow ⟨"B", "us-east-1", 128, 100, 100⟩,
       buildRow ⟨"A", "us-east-1", 128, 100, 1000⟩] ∧
    monthlyEstimate ⟨"B", "us-east-1", 128, 100, 100⟩ <
      monthlyEstimate ⟨"A", "us-east-1", 128, 100, 1000⟩ := by
  have h1 : intervals 100 = 1 := intervals_eq 100 1 (by norm_num) (by norm_num)
  have hcB : period_cost ⟨"B", "us-east-1", 128, 100, 100⟩ = 0.0000408 := by
    show calculate_cost 100 100 128 = 0.0000408
    rw [calculate_cost, h1, price_128, PRICE_PER_INVOCATION]
    norm_num
  have hcA : period_cost ⟨"A", "us-east-1", 128, 100, 1000⟩ = 0.000408 := by
    show calculate_cost 100 1000 128 = 0.000408
    rw [calculate_cost, h1, price_128, PRICE_PER_INVOCATION]
    norm_num
  have hkB : sortKey (buildRow ⟨"B", "us-east-1", 128, 100, 100⟩) = 0 := by
    rw [sortKey_buildRow_pos _ (by norm_num), hcB,
      round3_eq_div _ 0 (by norm_num) (by norm_num)]
    norm_num
  have hkA : sortKey (buildRow ⟨"A", "us-east-1", 128, 100, 1000⟩) = 0 := by
    rw [sortKey_buildRow_pos _ (by norm_num), hcA,
      round3_eq_div _ 0 (by norm_num) (by norm_num)]
    norm_num
  constructor
  · have hcond : sortKey (buildRow ⟨"A", "us-east-1", 128, 100, 1000⟩) ≤
        sortKey (buildRow ⟨"B", "us-east-1", 128, 100, 100⟩) := by
      rw [hkA, hkB]
    show insertRow (buildRow ⟨"B", "us-east-1", 128, 100, 100⟩)
        (insertRow (buildRow ⟨"A", "us-east-1", 128, 100, 1000⟩) []) = _
    rw [show insertRow (buildRow ⟨"A", "us-east-1", 128, 100, 1000⟩) ([] : List LambdaRow) =
        [buildRow ⟨"A", "us-east-1", 128, 100, 1000⟩] from rfl]
    rw [insertRow, if_pos hcond]
  · rw [monthlyEstimate, monthlyEstimate, hcB, hcA]
    norm_num

/-- C5 amended: the report is the stable descending sort by the *displayed
daily* cost (3-decimal rounding; equal displayed values keep discovery
order), with not-available rows keyed as 0; the sorted output is a
permutation, is sorted by that key, preserves the relative order of
equal-key rows, and the documented example with monthly costs
[5, N/A, 10] comes out as [10, 5, N/A]. -/
theorem C5_report_order :
    (∀ rows : List LambdaRow, List.Perm (sortRows rows) rows) ∧
    (∀ rows : List LambdaRow,
      (sortRows rows).Pairwise (fun a b => sortKey b ≤ sortKey a)) ∧
    (∀ (rows : List LambdaRow) (c : ℚ),
      (sortRows rows).filter (fun r => decide (sortKey r = c)) =
        rows.filter (fun r => decide (sortKey r = c))) ∧
    monthlyEstimate ⟨"f5", "r1", 128, 100, 62500000 / 153⟩ = 5 ∧
    monthlyEstimate ⟨"f10", "r1", 128, 100, 125000000 / 153⟩ = 10 ∧
    sortRows [buildRow ⟨"f5", "r1", 128, 100, 62500000 / 153⟩,
              buildRow ⟨"fNA", "r1", 128, 0, 0⟩,
              buildRow ⟨"f10", "r1", 128, 100, 125000000 / 153⟩] =
      [buildRow ⟨"f10", "r1", 128, 100, 125000000 / 153⟩,
       buildRow ⟨"f5", "r1", 128, 100, 62500000 / 153⟩,
       buildRow ⟨"fNA", "r1", 128, 0, 0⟩] := by
  have h1 : intervals 100 = 1 := intervals_eq 100 1 (by norm_num) (by norm_num)
  have hc5 : period_cost ⟨"f5", "r1", 128, 100, 62500000 / 153⟩ = 1 / 6 := by
    show calculate_cost 100 (62500000 / 153) 128 = 1 / 6
    rw [calculate_cost, h1, price_128, PRICE_PER_INVOCATION]
    norm_num
  have hc10 : period_cost ⟨"f10", "r1", 128, 100, 125000000 / 153⟩ = 1 / 3 := by
    show calculate_cost 100 (125000000 / 153) 128 = 1 / 3
    rw [calculate_cost, h1, price_128, PRICE_PER_INVOCATION]
    norm_num
  have hk5 : sortKey (buildRow ⟨"f5", "r1", 128, 100, 62500000 / 153⟩) = 167 / 1000 := by
    rw [sortKey_buildRow_pos _ (by norm_num), hc5,
      round3_eq_div _ 167 (by norm_num) (by norm_num)]
    norm_num
  have hk10 : sortKey (buildRow ⟨"f10", "r1", 128, 100, 125000000 / 153⟩) = 333 / 1000 := by
    rw [sortKey_buildRow_pos _ (by norm_num), hc10,
      round3_eq_div _ 333 (by norm_num) (by norm_num)]
    norm_num
  have hkNA : sortKey (buildRow ⟨"fNA", "r1", 128, 0, 0⟩) = 0 :=
    sortKey_buildRow_zero _ rfl
  refine ⟨sortRows_perm, sortRows_sorted, fun rows c => sortRows_filter c rows, ?_, ?_, ?_⟩
  · rw [monthlyEstimate, hc5]; norm_num
  · rw [monthlyEstimate, hc10]; norm_num
  · have e1 : insertRow (buildRow ⟨"f10", "r1", 128, 100, 125000000 / 153⟩)
        ([] : List LambdaRow) = [buildRow ⟨"f10", "r1", 128, 100, 125000000 / 153⟩] := rfl
    have e2 : insertRow (buildRow ⟨"fNA", "r1", 128, 0, 0⟩)
        [buildRow ⟨"f10", "r1", 128, 100, 125000000 / 153⟩] =
        [buildRow ⟨"f10", "r1", 128, 100, 125000000 / 153⟩,
         buildRow ⟨"fNA", "r1", 128, 0, 0⟩] := by
      rw [insertRow, if_neg (by rw [hk10, hkNA]; norm_num)]
      rfl
    have e3 : insertRow (buildRow ⟨"f5", "r1", 128, 100, 62500000 / 153⟩)
        [buildRow ⟨"f10", "r1", 128, 100, 125000000 / 153⟩,
         buildRow ⟨"fNA", "r1", 128, 0, 0⟩] =
        [buildRow ⟨"f10", "r1", 128, 100, 125000000 / 153⟩,
         buildRow ⟨"f5", "r1", 128, 100, 62500000 / 153⟩,
         buildRow ⟨"fNA", "r1", 128, 0, 0⟩] := by
      rw [insertRow, if_neg (by rw [hk10, hk5]; norm_num),
        insertRow, if_pos (by rw [hkNA, hk5]; norm_num)]
    show insertRow (buildRow ⟨"f5", "r1", 128, 100, 62500000 / 153⟩)
        (insertRow (buildRow ⟨"fNA", "r1", 128, 0, 0⟩)
          (insertRow (buildRow ⟨"f10", "r1", 128, 100, 125000000 / 153⟩) [])) = _
    rw [e1, e2, e3]

end LambdaCost
